import Mathlib

/-!
# Haunt — refresh-cache-broadcast pipeline, shallow embedding

A shallow embedding of the core of the Haunt server, translated from the
TypeScript source:

* the TTL `Cache` (`src/services/cache.ts`): a `Map<string, CacheEntry>` is
  modelled as an association list with unique keys; `Date.now()` becomes an
  explicit `now : Nat` argument (milliseconds);
* the `RoomManager` subscription registry (`src/websocket/rooms.ts`):
  JavaScript `Set`s are modelled as duplicate-free lists with insertion-order
  append (`Set.add` appends, `Set.delete` filters);
* the refresh `Scheduler` (`src/services/scheduler.ts`): provider calls are
  passed in as `Except` values, timers are recorded as data;
* the WebSocket message handlers (`src/websocket/handlers.ts`) and the
  scheduler listener installed by `initWebSocket` (`src/websocket/index.ts`):
  sends are modelled as the list of `(connection, frame)` pairs written.

Numeric payload fields (prices, volumes, …) are carried as `Int`; no claim
computes with them, they only flow through.
-/

namespace Haunt

/-! ## Association-list primitives (JavaScript `Map` semantics) -/

/-- `Map.get`: the value bound to `k`, looking at the first (unique) binding. -/
def alistLookup {κ β : Type} [DecidableEq κ] (k : κ) : List (κ × β) → Option β
  | [] => none
  | (k₁, v) :: rest => if k₁ = k then some v else alistLookup k rest

/-- `Map.set`: replace the binding for `k` in place, or append a new one. -/
def alistInsert {κ β : Type} [DecidableEq κ] (k : κ) (v : β) : List (κ × β) → List (κ × β)
  | [] => [(k, v)]
  | (k₁, v₁) :: rest =>
      if k₁ = k then (k, v) :: rest else (k₁, v₁) :: alistInsert k v rest

/-- `Map.delete`'s effect on the bindings: drop the binding for `k`. -/
def alistErase {κ β : Type} [DecidableEq κ] (k : κ) : List (κ × β) → List (κ × β)
  | [] => []
  | (k₁, v₁) :: rest =>
      if k₁ = k then alistErase k rest else (k₁, v₁) :: alistErase k rest

theorem alistLookup_insert_self {κ β : Type} [DecidableEq κ] (k : κ) (v : β)
    (l : List (κ × β)) : alistLookup k (alistInsert k v l) = some v := by
  induction l with
  | nil => simp [alistInsert, alistLookup]
  | cons p rest ih =>
      obtain ⟨k₁, v₁⟩ := p
      by_cases h : k₁ = k <;> simp [alistInsert, alistLookup, h, ih]

theorem alistLookup_insert_ne {κ β : Type} [DecidableEq κ] {k k₁ : κ} (v : β)
    (l : List (κ × β)) (hne : k₁ ≠ k) :
    alistLookup k₁ (alistInsert k v l) = alistLookup k₁ l := by
  induction l with
  | nil => simp [alistInsert, alistLookup, Ne.symm hne]
  | cons p rest ih =>
      obtain ⟨k₂, v₂⟩ := p
      by_cases h : k₂ = k
      · subst h
        simp [alistInsert, alistLookup, Ne.symm hne]
      · by_cases h₂ : k₂ = k₁
        · subst h₂
          simp [alistInsert, alistLookup, h]
        · simp [alistInsert, alistLookup, h, h₂, ih]

theorem alistLookup_erase_self {κ β : Type} [DecidableEq κ] (k : κ)
    (l : List (κ × β)) : alistLookup k (alistErase k l) = none := by
  induction l with
  | nil => simp [alistErase, alistLookup]
  | cons p rest ih =>
      obtain ⟨k₁, v₁⟩ := p
      by_cases h : k₁ = k <;> simp [alistErase, alistLookup, h, ih]

theorem alistLookup_erase_ne {κ β : Type} [DecidableEq κ] {k k₁ : κ}
    (l : List (κ × β)) (hne : k₁ ≠ k) :
    alistLookup k₁ (alistErase k l) = alistLookup k₁ l := by
  induction l with
  | nil => simp [alistErase, alistLookup]
  | cons p rest ih =>
      obtain ⟨k₂, v₂⟩ := p
      by_cases h : k₂ = k
      · subst h
        simp [alistErase, alistLookup, Ne.symm hne, ih]
      · by_cases h₂ : k₂ = k₁
        · subst h₂
          simp [alistErase, alistLookup, h]
        · simp [alistErase, alistLookup, h, h₂, ih]

/-! ## TTL Cache (`src/services/cache.ts`) -/

/-- `CacheEntry<T>` from `cache.ts`. Instants are epoch milliseconds. -/
structure CacheEntry (V : Type) where
  data : V
  expiresAt : Nat
  createdAt : Nat
deriving DecidableEq, Repr

/-- The cache's backing `Map<string, CacheEntry<unknown>>`. -/
abbrev CacheStore (V : Type) := List (String × CacheEntry V)

/-- `Cache.get`. Returns the value (or `none`) together with the store after
the lazy-expiry side effect: an entry found with `now > expiresAt` is
deleted. -/
def cacheGet {V : Type} (now : Nat) (key : String) (s : CacheStore V) :
    Option V × CacheStore V :=
  match alistLookup key s with
  | none => (none, s)
  | some entry =>
      if now > entry.expiresAt then (none, alistErase key s)
      else (some entry.data, s)

/-- `Cache.set`: unconditional overwrite with `expiresAt = now + ttl`. -/
def cacheSet {V : Type} (now : Nat) (key : String) (data : V) (ttl : Nat)
    (s : CacheStore V) : CacheStore V :=
  alistInsert key ⟨data, now + ttl, now⟩ s

/-- `Cache.has`: same freshness rule (and eviction side effect) as `get`,
without returning the value. -/
def cacheHas {V : Type} (now : Nat) (key : String) (s : CacheStore V) :
    Bool × CacheStore V :=
  match alistLookup key s with
  | none => (false, s)
  | some entry =>
      if now > entry.expiresAt then (false, alistErase key s)
      else (true, s)

/-- `Cache.delete`: `Map.delete` — result is whether a binding was present. -/
def cacheDelete {V : Type} (key : String) (s : CacheStore V) :
    Bool × CacheStore V :=
  ((alistLookup key s).isSome, alistErase key s)

/-- `Cache.ttl`: remaining milliseconds, or `-1` if absent or not strictly
positive. -/
def cacheTtl {V : Type} (now : Nat) (key : String) (s : CacheStore V) : Int :=
  match alistLookup key s with
  | none => -1
  | some entry =>
      let remaining : Int := (entry.expiresAt : Int) - (now : Int)
      if remaining > 0 then remaining else -1

/-- `Cache.cleanup` (the periodic sweep): evict every entry with
`now > expiresAt`. -/
def cacheCleanup {V : Type} (now : Nat) (s : CacheStore V) : CacheStore V :=
  s.filter fun p => decide (¬ now > p.2.expiresAt)

theorem cacheGet_lookup_none {V : Type} (now : Nat) (key : String)
    {s : CacheStore V} (h : alistLookup key s = none) :
    cacheGet now key s = (none, s) := by
  unfold cacheGet
  rw [h]

theorem cacheGet_lookup_some {V : Type} (now : Nat) (key : String)
    {s : CacheStore V} {e : CacheEntry V} (h : alistLookup key s = some e) :
    cacheGet now key s =
      if now > e.expiresAt then (none, alistErase key s)
      else (some e.data, s) := by
  unfold cacheGet
  rw [h]

theorem cacheHas_lookup_some {V : Type} (now : Nat) (key : String)
    {s : CacheStore V} {e : CacheEntry V} (h : alistLookup key s = some e) :
    cacheHas now key s =
      if now > e.expiresAt then (false, alistErase key s) else (true, s) := by
  unfold cacheHas
  rw [h]

theorem cacheTtl_lookup_some {V : Type} (now : Nat) (key : String)
    {s : CacheStore V} {e : CacheEntry V} (h : alistLookup key s = some e) :
    cacheTtl now key s =
      if ((e.expiresAt : Int) - (now : Int)) > 0
      then (e.expiresAt : Int) - (now : Int) else -1 := by
  unfold cacheTtl
  rw [h]

/-- After `set`, `get` under the same key finds exactly the written value
while `now ≤ now₀ + ttl`. -/
theorem cacheGet_cacheSet_self {V : Type} (now now₀ ttl : Nat) (key : String)
    (v : V) (s : CacheStore V) :
    (cacheGet now key (cacheSet now₀ key v ttl s)).1 =
      if now ≤ now₀ + ttl then some v else none := by
  unfold cacheGet cacheSet
  rw [alistLookup_insert_self]
  by_cases h : now > now₀ + ttl
  · simp [h, Nat.not_le_of_lt h]
  · simp [h, Nat.le_of_not_lt h]

/-- C1: after `set(k,v,t)` with `t > 0`, `get(k)` at time `now` returns `v`
exactly when the stored entry is fresh (`now` not past its `expiresAt`); an
entry found expired is evicted as a side effect and not returned; no `get`
ever returns a value whose `expiresAt` is in the past; `has` follows the same
freshness rule (and side effect) as `get`. -/
theorem cache_get_lazy_expiry {V : Type} (s : CacheStore V) (key : String)
    (v : V) (ttl now now₀ : Nat) (ht : 0 < ttl) :
    ((cacheGet now key (cacheSet now₀ key v ttl s)).1 = some v ↔
        ∃ e, alistLookup key (cacheSet now₀ key v ttl s) = some e ∧
          e.data = v ∧ ¬ now > e.expiresAt) ∧
    (∀ e, alistLookup key s = some e → now > e.expiresAt →
        (cacheGet now key s).1 = none ∧
        alistLookup key (cacheGet now key s).2 = none) ∧
    (∀ w, (cacheGet now key s).1 = some w →
        ∃ e, alistLookup key s = some e ∧ e.data = w ∧ ¬ e.expiresAt < now) ∧
    ((cacheHas now key s).1 = ((cacheGet now key s).1).isSome ∧
        (cacheHas now key s).2 = (cacheGet now key s).2) := by
  refine ⟨?_, ?_, ?_, ?_⟩
  · rw [cacheGet_cacheSet_self]
    unfold cacheSet
    rw [alistLookup_insert_self]
    by_cases h : now ≤ now₀ + ttl
    · simp only [if_pos h]
      constructor
      · intro _
        exact ⟨⟨v, now₀ + ttl, now₀⟩, rfl, rfl, Nat.not_lt.mpr h⟩
      · intro _
        trivial
    · simp only [if_neg h]
      constructor
      · intro hc
        cases hc
      · rintro ⟨e, he, _, hfresh⟩
        injection he with he
        subst he
        exfalso
        exact hfresh (Nat.lt_of_not_le h)
  · intro e he hgt
    rw [cacheGet_lookup_some now key he, if_pos hgt]
    exact ⟨rfl, alistLookup_erase_self key s⟩
  · intro w hw
    cases hlook : alistLookup key s with
    | none => rw [cacheGet_lookup_none now key hlook] at hw; cases hw
    | some e =>
        rw [cacheGet_lookup_some now key hlook] at hw
        by_cases hgt : now > e.expiresAt
        · rw [if_pos hgt] at hw; cases hw
        · rw [if_neg hgt] at hw
          injection hw with hw
          exact ⟨e, rfl, hw, hgt⟩
  · cases hlook : alistLookup key s with
    | none =>
        rw [cacheGet_lookup_none now key hlook]
        unfold cacheHas
        rw [hlook]
        exact ⟨rfl, rfl⟩
    | some e =>
        rw [cacheGet_lookup_some now key hlook, cacheHas_lookup_some now key hlook]
        by_cases hgt : now > e.expiresAt
        · simp [hgt]
        · simp [hgt]

/-- C1 witness: concrete instance of `cache_get_lazy_expiry`. -/
theorem cache_get_lazy_expiry_witness :
    (cacheGet (V := Nat) 3 "k" (cacheSet 0 "k" 5 10 [])).1 = some 5 := by
  have h := (cache_get_lazy_expiry (V := Nat) [] "k" 5 10 3 0 (by decide)).1
  exact h.mpr ⟨⟨5, 10, 0⟩, rfl, rfl, by decide⟩

/-- C8 counterexample: an entry written at time 0 with ttl 10 is expired at
`now = 20` (a `get` returns not-found), yet `delete` still returns `true`;
the claim says deleting an expired-but-unevicted entry returns `false`. -/
theorem cacheDelete_expired_entry_returns_true :
    alistLookup "k" (cacheSet (V := Nat) 0 "k" 7 10 []) = some ⟨7, 10, 0⟩ ∧
    (20 : Nat) > 10 ∧
    (cacheGet (V := Nat) 20 "k" (cacheSet 0 "k" 7 10 [])).1 = none ∧
    (cacheDelete "k" (cacheSet (V := Nat) 0 "k" 7 10 [])).1 = true := by
  exact ⟨rfl, by omega, rfl, rfl⟩

/-- C8 amended: `delete(k)` returns `true` exactly when an entry for `k` was
present in the store — live or expired — and removes it; other keys are
untouched. -/
theorem cacheDelete_spec {V : Type} (s : CacheStore V) (key other : String)
    (hne : other ≠ key) :
    ((cacheDelete key s).1 = true ↔ (alistLookup key s).isSome = true) ∧
    alistLookup key (cacheDelete key s).2 = none ∧
    alistLookup other (cacheDelete key s).2 = alistLookup other s := by
  refine ⟨Iff.rfl, ?_, ?_⟩
  · exact alistLookup_erase_self key s
  · exact alistLookup_erase_ne s hne

/-- C8 witness: concrete instance of `cacheDelete_spec`. -/
theorem cacheDelete_spec_witness :
    alistLookup "a" (cacheDelete "k" (cacheSet (V := Nat) 0 "k" 7 10 [])).2 =
      alistLookup "a" (cacheSet (V := Nat) 0 "k" 7 10 []) :=
  (cacheDelete_spec (cacheSet (V := Nat) 0 "k" 7 10 []) "k" "a"
    (by decide)).2.2

/-- C9 counterexample: with an entry expiring at instant 10, at `now = 10`
`get` still returns the value (`now > expiresAt` is false) while
`remainingTtl` already returns `-1` (`remaining > 0` is false); the claim
says `remainingTtl` is non-negative whenever `get` returns a value. -/
theorem cacheTtl_boundary_mismatch :
    (cacheGet (V := Nat) 10 "k" (cacheSet 0 "k" 7 10 [])).1 = some 7 ∧
    cacheTtl (V := Nat) 10 "k" (cacheSet 0 "k" 7 10 []) = -1 := by
  exact ⟨rfl, rfl⟩

/-- C9 amended: `remainingTtl(k)` is `-1` exactly when `k` is absent or its
entry's `expiresAt` is not strictly in the future (`expiresAt ≤ now`);
otherwise it is the positive remaining duration `expiresAt - now`. Whenever
`get(k)` returns a value, `remainingTtl(k)` is positive except at the single
boundary instant `now = expiresAt`, where `get` still returns the value but
`remainingTtl` is already `-1`. -/
theorem cacheTtl_spec {V : Type} (s : CacheStore V) (key : String)
    (now : Nat) :
    (cacheTtl now key s = -1 ↔
        ∀ e, alistLookup key s = some e → e.expiresAt ≤ now) ∧
    (∀ e, alistLookup key s = some e → now < e.expiresAt →
        cacheTtl now key s = (e.expiresAt : Int) - (now : Int) ∧
        0 < cacheTtl now key s) ∧
    (∀ w, (cacheGet now key s).1 = some w →
        0 < cacheTtl now key s ∨
          (cacheTtl now key s = -1 ∧
            ∃ e, alistLookup key s = some e ∧ e.expiresAt = now)) := by
  refine ⟨?_, ?_, ?_⟩
  · cases hlook : alistLookup key s with
    | none =>
        unfold cacheTtl
        rw [hlook]
        simp
    | some e =>
        rw [cacheTtl_lookup_some now key hlook]
        by_cases h : ((e.expiresAt : Int) - (now : Int)) > 0
        · rw [if_pos h]
          constructor
          · intro hc
            exfalso
            omega
          · intro hall
            have := hall e rfl
            exfalso
            omega
        · rw [if_neg h]
          constructor
          · intro _ e₂ he₂
            injection he₂ with he₂
            subst he₂
            omega
          · intro _
            rfl
  · intro e he hlt
    rw [cacheTtl_lookup_some now key he]
    have h : ((e.expiresAt : Int) - (now : Int)) > 0 := by omega
    rw [if_pos h]
    exact ⟨rfl, by omega⟩
  · intro w hw
    cases hlook : alistLookup key s with
    | none => rw [cacheGet_lookup_none now key hlook] at hw; cases hw
    | some e =>
        rw [cacheGet_lookup_some now key hlook] at hw
        by_cases hgt : now > e.expiresAt
        · rw [if_pos hgt] at hw; cases hw
        · rw [if_neg hgt] at hw
          by_cases hstrict : now < e.expiresAt
          · left
            rw [cacheTtl_lookup_some now key hlook]
            have h : ((e.expiresAt : Int) - (now : Int)) > 0 := by omega
            rw [if_pos h]
            omega
          · right
            have hboundary : e.expiresAt = now := by omega
            constructor
            · rw [cacheTtl_lookup_some now key hlook]
              have h : ¬ ((e.expiresAt : Int) - (now : Int)) > 0 := by omega
              rw [if_neg h]
            · exact ⟨e, rfl, hboundary⟩

/-- C9 witness: concrete instance of `cacheTtl_spec`. -/
theorem cacheTtl_spec_witness :
    cacheTtl (V := Nat) 3 "k" (cacheSet 0 "k" 7 10 []) =
        ((10 : Nat) : Int) - ((3 : Nat) : Int) ∧
    0 < cacheTtl (V := Nat) 3 "k" (cacheSet 0 "k" 7 10 []) :=
  (cacheTtl_spec (cacheSet (V := Nat) 0 "k" 7 10 []) "k" 3).2.1
    ⟨7, 10, 0⟩ rfl (by decide)

/-! ## Subscription registry (`src/websocket/rooms.ts`) -/

/-- An opaque connection handle (`WebSocket`). -/
abbrev Conn := Nat

/-- JavaScript's `String.prototype.toLowerCase()`, as used for symbol
normalization (defined directly over the character list so that it
evaluates inside the kernel). -/
def strToLower (s : String) : String := ⟨s.data.map Char.toLower⟩

/-- `Set.add`: a JavaScript `Set` is a duplicate-free list in insertion
order; adding an element appends it unless already present. -/
def setAdd {α : Type} [DecidableEq α] (x : α) (s : List α) : List α :=
  if x ∈ s then s else s ++ [x]

/-- `Set.delete`'s effect on the elements. -/
def setDelete {α : Type} [DecidableEq α] (x : α) (s : List α) : List α :=
  s.filter fun y => decide (y ≠ x)

theorem mem_setAdd_iff {α : Type} [DecidableEq α] (x y : α) (s : List α) :
    y ∈ setAdd x s ↔ y = x ∨ y ∈ s := by
  unfold setAdd
  by_cases h : x ∈ s
  · rw [if_pos h]
    constructor
    · exact Or.inr
    · rintro (rfl | hy)
      · exact h
      · exact hy
  · rw [if_neg h]
    simp [List.mem_append, or_comm]

theorem mem_setDelete_iff {α : Type} [DecidableEq α] (x y : α) (s : List α) :
    y ∈ setDelete x s ↔ y ∈ s ∧ y ≠ x := by
  unfold setDelete
  simp [List.mem_filter]

theorem setAdd_ne_nil {α : Type} [DecidableEq α] (x : α) (s : List α) :
    setAdd x s ≠ [] := by
  unfold setAdd
  by_cases h : x ∈ s
  · rw [if_pos h]
    intro hnil
    rw [hnil] at h
    cases h
  · rw [if_neg h]
    simp

/-- The `RoomManager`'s three indexes. -/
structure RoomState where
  assetRooms : List (String × List Conn)
  marketRoom : List Conn
  clientSubscriptions : List (Conn × List String)

/-- The state of a freshly constructed `RoomManager`. -/
def initRooms : RoomState := ⟨[], [], []⟩

/-- Body of the `for` loop in `RoomManager.subscribe`: the accumulator is
`(subscribed, assetRooms, clientSubs)`. -/
def subscribeStep (c : Conn)
    (acc : List String × List (String × List Conn) × List String)
    (asset : String) :
    List String × List (String × List Conn) × List String :=
  let room := (alistLookup asset acc.2.1).getD []
  (acc.1 ++ [asset],
   alistInsert asset (setAdd c room) acc.2.1,
   setAdd asset acc.2.2)

/-- `RoomManager.subscribe`: lower-case the symbols, add the client to each
symbol's room and each symbol to the client's reverse index, then
unconditionally add the client to the market room.  Returns the `subscribed`
list accumulated by the loop together with the new state. -/
def subscribe (st : RoomState) (c : Conn) (assets : List String) :
    List String × RoomState :=
  let normalizedAssets := assets.map strToLower
  let clientSubs := (alistLookup c st.clientSubscriptions).getD []
  let r := normalizedAssets.foldl (subscribeStep c) ([], st.assetRooms, clientSubs)
  (r.1,
   { assetRooms := r.2.1,
     marketRoom := setAdd c st.marketRoom,
     clientSubscriptions := alistInsert c r.2.2 st.clientSubscriptions })

/-- Body of the `for` loop in `RoomManager.unsubscribe`: remove the client
from the symbol's room (dropping the room entirely if it becomes empty),
remove the symbol from the client's reverse index, and record the symbol in
the returned `unsubscribed` list — unconditionally. -/
def unsubscribeStep (c : Conn)
    (acc : List String × List (String × List Conn) × List String)
    (asset : String) :
    List String × List (String × List Conn) × List String :=
  let rooms :=
    match alistLookup asset acc.2.1 with
    | none => acc.2.1
    | some room =>
        let room₁ := setDelete c room
        if room₁ = [] then alistErase asset acc.2.1
        else alistInsert asset room₁ acc.2.1
  (acc.1 ++ [asset], rooms, setDelete asset acc.2.2)

/-- `RoomManager.unsubscribe`: with no symbol list, target the client's whole
current subscription set; afterwards, if the client's reverse index is empty,
drop it from the market room.  Returns `[]` if the client has no
subscription entry at all. -/
def unsubscribe (st : RoomState) (c : Conn) (assets : Option (List String)) :
    List String × RoomState :=
  match alistLookup c st.clientSubscriptions with
  | none => ([], st)
  | some clientSubs =>
      let assetsToRemove :=
        match assets with
        | some l => l.map strToLower
        | none => clientSubs
      let r := assetsToRemove.foldl (unsubscribeStep c) ([], st.assetRooms, clientSubs)
      (r.1,
       { assetRooms := r.2.1,
         marketRoom := if r.2.2 = [] then setDelete c st.marketRoom
                       else st.marketRoom,
         clientSubscriptions := alistInsert c r.2.2 st.clientSubscriptions })

/-- `RoomManager.removeClient`: drop the client from every room it is in
(cleaning up empty rooms), delete its reverse-index entry, and remove it
from the market room. -/
def removeClient (st : RoomState) (c : Conn) : RoomState :=
  let st₁ :=
    match alistLookup c st.clientSubscriptions with
    | none => st
    | some clientSubs =>
        { st with
          assetRooms := clientSubs.foldl (fun rooms asset =>
            match alistLookup asset rooms with
            | none => rooms
            | some room =>
                let room₁ := setDelete c room
                if room₁ = [] then alistErase asset rooms
                else alistInsert asset room₁ rooms) st.assetRooms,
          clientSubscriptions := alistErase c st.clientSubscriptions }
  { st₁ with marketRoom := setDelete c st₁.marketRoom }

/-- `RoomManager.getAssetSubscribers`: the room for the lower-cased symbol,
or the empty set. -/
def getAssetSubscribers (st : RoomState) (asset : String) : List Conn :=
  (alistLookup (strToLower asset) st.assetRooms).getD []

/-- `RoomManager.getMarketSubscribers`. -/
def getMarketSubscribers (st : RoomState) : List Conn :=
  st.marketRoom

/-- `RoomManager.getClientSubscriptions`. -/
def getClientSubscriptions (st : RoomState) (c : Conn) : List String :=
  (alistLookup c st.clientSubscriptions).getD []

theorem subscribe_foldl_fst (c : Conn) (l : List String)
    (acc : List String × List (String × List Conn) × List String) :
    (l.foldl (subscribeStep c) acc).1 = acc.1 ++ l := by
  induction l generalizing acc with
  | nil => simp
  | cons a t ih =>
      rw [List.foldl_cons, ih]
      simp [subscribeStep]

theorem subscribe_foldl_subs (c : Conn) (l : List String)
    (acc : List String × List (String × List Conn) × List String) :
    (l.foldl (subscribeStep c) acc).2.2 =
      l.foldl (fun s a => setAdd a s) acc.2.2 := by
  induction l generalizing acc with
  | nil => simp
  | cons a t ih =>
      rw [List.foldl_cons, List.foldl_cons, ih]
      rfl

theorem unsubscribe_foldl_fst (c : Conn) (l : List String)
    (acc : List String × List (String × List Conn) × List String) :
    (l.foldl (unsubscribeStep c) acc).1 = acc.1 ++ l := by
  induction l generalizing acc with
  | nil => simp
  | cons a t ih =>
      rw [List.foldl_cons, ih]
      simp [unsubscribeStep]

theorem unsubscribe_foldl_subs (c : Conn) (l : List String)
    (acc : List String × List (String × List Conn) × List String) :
    (l.foldl (unsubscribeStep c) acc).2.2 =
      l.foldl (fun s a => setDelete a s) acc.2.2 := by
  induction l generalizing acc with
  | nil => simp
  | cons a t ih =>
      rw [List.foldl_cons, List.foldl_cons, ih]
      rfl

theorem mem_foldl_setDelete {α : Type} [DecidableEq α] (l init : List α)
    (x : α) (hx : x ∈ l.foldl (fun s a => setDelete a s) init) :
    x ∈ init ∧ x ∉ l := by
  induction l generalizing init with
  | nil => simpa using hx
  | cons a t ih =>
      rw [List.foldl_cons] at hx
      obtain ⟨h₁, h₂⟩ := ih (setDelete a init) hx
      rw [mem_setDelete_iff] at h₁
      refine ⟨h₁.1, ?_⟩
      intro hmem
      rcases List.mem_cons.mp hmem with rfl | hmem
      · exact h₁.2 rfl
      · exact h₂ hmem

theorem foldl_setDelete_self {α : Type} [DecidableEq α] (l : List α) :
    l.foldl (fun s a => setDelete a s) l = [] := by
  by_contra h
  obtain ⟨x, hx⟩ := List.exists_mem_of_ne_nil _ h
  obtain ⟨h₁, h₂⟩ := mem_foldl_setDelete l l x hx
  exact h₂ h₁

theorem foldl_setAdd_ne_nil {α : Type} [DecidableEq α] (l init : List α)
    (h : init ≠ [] ∨ l ≠ []) :
    l.foldl (fun s a => setAdd a s) init ≠ [] := by
  induction l generalizing init with
  | nil => simpa using h.resolve_right (by simp)
  | cons a t ih =>
      rw [List.foldl_cons]
      exact ih (setAdd a init) (Or.inl (setAdd_ne_nil a init))

/-- C10: `subscribe` returns the lower-cased input list element-for-element
— same length and order, duplicates preserved — even though the registry's
reverse index records each symbol once: `subscribe(c, ["BTC","btc"])`
returns `["btc","btc"]` while `subscriptionsOf(c)` is just `["btc"]`. -/
theorem subscribe_returns_normalized (st : RoomState) (c : Conn)
    (assets : List String) :
    (subscribe st c assets).1 = assets.map strToLower ∧
    (subscribe initRooms 0 ["BTC", "btc"]).1 = ["btc", "btc"] ∧
    getClientSubscriptions (subscribe initRooms 0 ["BTC", "btc"]).2 0 =
      ["btc"] := by
  refine ⟨?_, ?_, ?_⟩
  · simp only [subscribe]
    rw [subscribe_foldl_fst]
    simp
  · rfl
  · rfl

/-- C2 counterexample: connection 0 is subscribed to "btc" only, yet
`unsubscribe(0, ["eth"])` returns `["eth"]` — a symbol it was never
subscribed to — where the claim requires it not to appear. -/
theorem unsubscribe_reports_never_subscribed :
    (unsubscribe (subscribe initRooms 0 ["btc"]).2 0 (some ["eth"])).1 =
        ["eth"] ∧
    "eth" ∉ getClientSubscriptions (subscribe initRooms 0 ["btc"]).2 0 := by
  exact ⟨rfl, by decide⟩

/-- C2 amended: whenever the connection has a reverse-index entry (even an
empty one), `unsubscribe` returns the full lower-cased target list — each
targeted symbol, subscribed or not — and with `symbols` omitted it returns
the connection's current subscription list; only a connection with no
reverse-index entry at all yields `[]`. -/
theorem unsubscribe_returns_targets (st : RoomState) (c : Conn)
    (assets : Option (List String)) :
    (unsubscribe st c assets).1 =
      match alistLookup c st.clientSubscriptions with
      | none => []
      | some subs =>
          match assets with
          | some l => l.map strToLower
          | none => subs := by
  cases hlook : alistLookup c st.clientSubscriptions with
  | none =>
      unfold unsubscribe
      rw [hlook]
  | some subs =>
      unfold unsubscribe
      rw [hlook]
      cases assets with
      | none =>
          dsimp only
          rw [unsubscribe_foldl_fst]
          simp
      | some l =>
          dsimp only
          rw [unsubscribe_foldl_fst]
          simp

/-- C3 counterexample: `subscribe(c, [])` adds `c` to the all-updates room
while its reverse-index symbol set stays empty, violating the claimed
if-and-only-if for arbitrary operation sequences. -/
theorem subscribe_empty_joins_market_room :
    0 ∈ getMarketSubscribers (subscribe initRooms 0 []).2 ∧
    getClientSubscriptions (subscribe initRooms 0 []).2 0 = [] := by
  exact ⟨by decide, rfl⟩

/-- A registry operation, as issued by the message handler. -/
inductive RoomOp where
  | sub (c : Conn) (assets : List String)
  | unsub (c : Conn) (assets : Option (List String))
  | disconnect (c : Conn)

def applyRoomOp (st : RoomState) : RoomOp → RoomState
  | .sub c assets => (subscribe st c assets).2
  | .unsub c assets => (unsubscribe st c assets).2
  | .disconnect c => removeClient st c

def runRoomOps (ops : List RoomOp) : RoomState :=
  ops.foldl applyRoomOp initRooms

/-- The op carries a non-empty symbol list whenever it is a subscribe. -/
def opNonEmptySub : RoomOp → Prop
  | .sub _ assets => assets ≠ []
  | _ => True

theorem subscribe_preserves_coupling (st : RoomState) (c : Conn)
    (assets : List String) (hne : assets ≠ [])
    (h : ∀ x, x ∈ st.marketRoom ↔ getClientSubscriptions st x ≠ []) :
    ∀ x, x ∈ (subscribe st c assets).2.marketRoom ↔
      getClientSubscriptions (subscribe st c assets).2 x ≠ [] := by
  intro x
  simp only [subscribe, getClientSubscriptions]
  by_cases hx : x = c
  · subst hx
    rw [alistLookup_insert_self]
    rw [subscribe_foldl_subs]
    constructor
    · intro _
      simp only [Option.getD_some]
      exact foldl_setAdd_ne_nil _ _ (Or.inr (by simpa using hne))
    · intro _
      exact (mem_setAdd_iff x x st.marketRoom).mpr (Or.inl rfl)
  · rw [alistLookup_insert_ne _ _ hx]
    rw [mem_setAdd_iff]
    constructor
    · rintro (rfl | hmem)
      · exact absurd rfl hx
      · exact (h x).mp hmem
    · intro hsub
      exact Or.inr ((h x).mpr hsub)

theorem unsubscribe_preserves_coupling (st : RoomState) (c : Conn)
    (assets : Option (List String))
    (h : ∀ x, x ∈ st.marketRoom ↔ getClientSubscriptions st x ≠ []) :
    ∀ x, x ∈ (unsubscribe st c assets).2.marketRoom ↔
      getClientSubscriptions (unsubscribe st c assets).2 x ≠ [] := by
  intro x
  cases hlook : alistLookup c st.clientSubscriptions with
  | none =>
      unfold unsubscribe
      rw [hlook]
      exact h x
  | some subs =>
      unfold unsubscribe
      rw [hlook]
      dsimp only [getClientSubscriptions]
      by_cases hx : x = c
      · subst hx
        rw [alistLookup_insert_self, Option.getD_some]
        by_cases hnil :
            ((match assets with
              | some l => l.map strToLower
              | none => subs).foldl (unsubscribeStep x)
                ([], st.assetRooms, subs)).2.2 = []
        · rw [if_pos hnil, hnil]
          constructor
          · intro hmem
            exact absurd ((mem_setDelete_iff x x st.marketRoom).mp hmem).2 (by simp)
          · intro hne
            exact absurd rfl hne
        · rw [if_neg hnil]
          constructor
          · intro _
            exact hnil
          · intro _
            refine (h x).mpr ?_
            rw [getClientSubscriptions, hlook, Option.getD_some]
            obtain ⟨y, hy⟩ := List.exists_mem_of_ne_nil _ hnil
            rw [unsubscribe_foldl_subs] at hy
            have hmem := (mem_foldl_setDelete _ _ y hy).1
            intro hs
            rw [hs] at hmem
            cases hmem
      · rw [alistLookup_insert_ne _ _ hx]
        have hmarket : ∀ mr : List Conn,
            (x ∈ (if
              ((match assets with
                | some l => l.map strToLower
                | none => subs).foldl (unsubscribeStep c)
                  ([], st.assetRooms, subs)).2.2 = []
              then setDelete c mr else mr)) ↔ x ∈ mr := by
          intro mr
          by_cases hnil :
              ((match assets with
                | some l => l.map strToLower
                | none => subs).foldl (unsubscribeStep c)
                  ([], st.assetRooms, subs)).2.2 = []
          · rw [if_pos hnil, mem_setDelete_iff]
            constructor
            · exact And.left
            · intro hmem
              exact ⟨hmem, hx⟩
          · rw [if_neg hnil]
        rw [hmarket]
        exact h x

theorem removeClient_preserves_coupling (st : RoomState) (c : Conn)
    (h : ∀ x, x ∈ st.marketRoom ↔ getClientSubscriptions st x ≠ []) :
    ∀ x, x ∈ (removeClient st c).marketRoom ↔
      getClientSubscriptions (removeClient st c) x ≠ [] := by
  intro x
  cases hlook : alistLookup c st.clientSubscriptions with
  | none =>
      unfold removeClient
      rw [hlook]
      dsimp only [getClientSubscriptions]
      by_cases hx : x = c
      · subst hx
        rw [mem_setDelete_iff, hlook]
        simp
      · rw [mem_setDelete_iff]
        constructor
        · intro hmem
          exact (h x).mp hmem.1
        · intro hsub
          exact ⟨(h x).mpr hsub, hx⟩
  | some subs =>
      unfold removeClient
      rw [hlook]
      dsimp only [getClientSubscriptions]
      by_cases hx : x = c
      · subst hx
        rw [mem_setDelete_iff, alistLookup_erase_self]
        simp
      · rw [mem_setDelete_iff, alistLookup_erase_ne _ hx]
        constructor
        · intro hmem
          exact (h x).mp hmem.1
        · intro hsub
          exact ⟨(h x).mpr hsub, hx⟩

theorem foldl_applyRoomOp_coupling (ops : List RoomOp) (st : RoomState)
    (hops : ∀ op ∈ ops, opNonEmptySub op)
    (h : ∀ x, x ∈ st.marketRoom ↔ getClientSubscriptions st x ≠ []) :
    ∀ x, x ∈ (ops.foldl applyRoomOp st).marketRoom ↔
      getClientSubscriptions (ops.foldl applyRoomOp st) x ≠ [] := by
  induction ops generalizing st with
  | nil => simpa using h
  | cons op rest ih =>
      rw [List.foldl_cons]
      refine ih (applyRoomOp st op) (fun o ho => hops o (List.mem_cons_of_mem _ ho)) ?_
      cases op with
      | sub c assets =>
          exact subscribe_preserves_coupling st c assets
            (hops _ (List.mem_cons_self _ _)) h
      | unsub c assets => exact unsubscribe_preserves_coupling st c assets h
      | disconnect c => exact removeClient_preserves_coupling st c h

/-- C3 amended: over any operation history in which every `subscribe`
carries a non-empty symbol list, a connection is in the all-updates room if
and only if its reverse-index symbol set is non-empty; `subscribe(c, s)`
with non-empty `s` always puts `c` into the all-updates room, and
`unsubscribe(c)` with no symbols argument always leaves `c` outside it.
(The restriction on subscribes is forced: `subscribe(c, [])` adds `c` to
the all-updates room while its reverse-index set stays empty.) -/
theorem market_room_coupling (ops : List RoomOp)
    (hops : ∀ op ∈ ops, opNonEmptySub op) :
    (∀ c, c ∈ getMarketSubscribers (runRoomOps ops) ↔
        getClientSubscriptions (runRoomOps ops) c ≠ []) ∧
    (∀ (st : RoomState) (c : Conn) (a : String) (rest : List String),
        c ∈ getMarketSubscribers (subscribe st c (a :: rest)).2) ∧
    (∀ c, c ∉ getMarketSubscribers (unsubscribe (runRoomOps ops) c none).2) := by
  have hcoupling : ∀ x, x ∈ (runRoomOps ops).marketRoom ↔
      getClientSubscriptions (runRoomOps ops) x ≠ [] :=
    foldl_applyRoomOp_coupling ops initRooms hops
      (by intro x; simp [initRooms, getClientSubscriptions, alistLookup])
  refine ⟨hcoupling, ?_, ?_⟩
  · intro st c a rest
    simp only [subscribe, getMarketSubscribers]
    exact (mem_setAdd_iff c c st.marketRoom).mpr (Or.inl rfl)
  · intro c
    cases hlook : alistLookup c (runRoomOps ops).clientSubscriptions with
    | none =>
        unfold unsubscribe
        rw [hlook]
        intro hmem
        have := (hcoupling c).mp hmem
        rw [getClientSubscriptions, hlook] at this
        exact this rfl
    | some subs =>
        unfold unsubscribe
        rw [hlook]
        dsimp only [getMarketSubscribers]
        have hnil : (subs.foldl (unsubscribeStep c)
            ([], (runRoomOps ops).assetRooms, subs)).2.2 = [] := by
          rw [unsubscribe_foldl_subs]
          exact foldl_setDelete_self subs
        rw [if_pos hnil]
        intro hmem
        exact ((mem_setDelete_iff c c _).mp hmem).2 rfl

/-- C3 witness: concrete instance of `market_room_coupling`. -/
theorem market_room_coupling_witness :
    0 ∈ getMarketSubscribers (runRoomOps [RoomOp.sub 0 ["btc"]]) :=
  ((market_room_coupling [RoomOp.sub 0 ["btc"]]
      (by
        intro op hop
        rw [List.mem_singleton] at hop
        subst hop
        simp [opNonEmptySub])).1 0).mpr (by decide)

/-! ## Payload types (`src/types`, `src/schemas`) -/

/-- The `Asset` shape produced by `cmcToAsset`. Numbers are carried as
`Int`, strings as `String`. -/
structure Asset where
  id : Int
  rank : Int
  name : String
  symbol : String
  image : String
  price : Int
  change1h : Int
  change24h : Int
  change7d : Int
  marketCap : Int
  volume24h : Int
  circulatingSupply : Int
  maxSupply : Option Int
  sparkline : List Int
deriving DecidableEq, Repr

/-- The simplified `GlobalMetrics` produced by `cmcToGlobalMetrics`. -/
structure GlobalMetrics where
  totalMarketCap : Int
  totalVolume24h : Int
  btcDominance : Int
  ethDominance : Int
  activeCryptocurrencies : Int
  activeExchanges : Int
  marketCapChange24h : Int
  volumeChange24h : Int
  lastUpdated : String
deriving DecidableEq, Repr

/-- The simplified `FearGreedData` produced by `cmcToFearGreed`. -/
structure FearGreedData where
  value : Int
  classification : String
  timestamp : String
deriving DecidableEq, Repr

/-! ## Refresh scheduler (`src/services/scheduler.ts`) -/

/-- A refresh kind, as in the `type` field of a scheduler callback. -/
inductive RefreshKind where
  | listings
  | globalMetrics
  | fearGreed
deriving DecidableEq, Repr

/-- The payload union `Asset[] | GlobalMetrics | FearGreedData`. -/
inductive AnnouncementData where
  | listings (assets : List Asset)
  | globalMetrics (m : GlobalMetrics)
  | fearGreed (f : FearGreedData)
deriving DecidableEq, Repr

/-- The `{type, data}` record handed to scheduler callbacks. -/
structure Announcement where
  type : RefreshKind
  data : AnnouncementData
deriving DecidableEq, Repr

/-- A scheduler callback; a thrown exception is an `Except.error` carrying
the message. -/
abbrev Listener := Announcement → Except String Unit

/-- The `unknown` union of values the scheduler stores in the cache. -/
inductive CacheValue where
  | listingsVal (assets : List Asset)
  | assetVal (a : Asset)
  | metricsVal (m : GlobalMetrics)
  | fearGreedVal (f : FearGreedData)
deriving DecidableEq, Repr

/-- `CACHE_CONFIG` TTLs, in milliseconds. -/
def listingsTtl : Nat := 30000
def quotesTtl : Nat := 15000
def globalMetricsTtl : Nat := 60000
def fearGreedTtl : Nat := 300000
def assetTtl : Nat := 30000

/-- `CACHE_KEYS.listings`. -/
def listingsKey (start limit : Nat) : String :=
  "listings:" ++ toString start ++ ":" ++ toString limit

/-- `CACHE_KEYS.asset`. -/
def assetKey (id : Int) : String := "asset:" ++ toString id

/-- `CACHE_KEYS.globalMetrics`. -/
def globalMetricsKey : String := "global-metrics"

/-- `CACHE_KEYS.fearGreed`. -/
def fearGreedKey : String := "fear-greed"

/-- `Scheduler.notify`: invoke every callback in registration order; an
exception thrown by one is caught (and logged) so the loop continues.
Returns, per listener in order, `none` if it returned normally and
`some msg` if it threw `msg`. -/
def notify (listeners : List Listener) (a : Announcement) :
    List (Option String) :=
  listeners.map fun cb =>
    match cb a with
    | .ok _ => none
    | .error err => some err

/-- `Scheduler.refreshListings`: the provider outcome is passed in as an
`Except`. On success, cache the full list under the listings key, cache
each asset under its per-asset key, and notify all listeners; on failure,
rethrow with the cache untouched and no notification. The third component
records each `notify` call made together with its per-listener outcomes. -/
def refreshListings (provider : Except String (List Asset)) (now : Nat)
    (listeners : List Listener) (s : CacheStore CacheValue) :
    Except String (List Asset) × CacheStore CacheValue ×
      List (Announcement × List (Option String)) :=
  match provider with
  | .error e => (.error e, s, [])
  | .ok assets =>
      let s₁ := cacheSet now (listingsKey 1 100)
        (CacheValue.listingsVal assets) listingsTtl s
      let s₂ := assets.foldl
        (fun acc a => cacheSet now (assetKey a.id) (CacheValue.assetVal a)
          assetTtl acc) s₁
      let ann : Announcement := ⟨.listings, .listings assets⟩
      (.ok assets, s₂, [(ann, notify listeners ann)])

/-- `Scheduler.refreshGlobalMetrics`: on success, cache under
`global-metrics` and notify; on failure, rethrow with the cache untouched
and no notification. -/
def refreshGlobalMetrics (provider : Except String GlobalMetrics)
    (now : Nat) (listeners : List Listener) (s : CacheStore CacheValue) :
    Except String GlobalMetrics × CacheStore CacheValue ×
      List (Announcement × List (Option String)) :=
  match provider with
  | .error e => (.error e, s, [])
  | .ok metrics =>
      let s₁ := cacheSet now globalMetricsKey
        (CacheValue.metricsVal metrics) globalMetricsTtl s
      let ann : Announcement := ⟨.globalMetrics, .globalMetrics metrics⟩
      (.ok metrics, s₁, [(ann, notify listeners ann)])

/-- A recurring timer armed by `Scheduler.start` (one `setInterval`). -/
structure TimerHandle where
  kind : RefreshKind
  periodMs : Nat
deriving DecidableEq, Repr

/-- The scheduler's own mutable fields: `intervals`, `callbacks`,
`isRunning`. -/
structure SchedulerState where
  intervals : List TimerHandle
  callbacks : List Listener
  isRunning : Bool

/-- A freshly constructed `Scheduler`. -/
def schedInit : SchedulerState := ⟨[], [], false⟩

/-- The three timers armed by `start`, in push order, with periods equal to
the cache TTLs. -/
def fullTimers : List TimerHandle :=
  [⟨.listings, listingsTtl⟩, ⟨.globalMetrics, globalMetricsTtl⟩,
   ⟨.fearGreed, fearGreedTtl⟩]

/-- `Scheduler.start`: early-return when already running; otherwise mark
running and push one recurring timer per refresh kind with period equal to
that kind's cache TTL. -/
def schedStart (st : SchedulerState) : SchedulerState :=
  if st.isRunning = true then st
  else
    { st with
      isRunning := true,
      intervals := st.intervals ++ fullTimers }

/-- `Scheduler.stop`: early-return when not running; otherwise clear the
timers and the registered callbacks. -/
def schedStop (st : SchedulerState) : SchedulerState :=
  if st.isRunning = false then st
  else { st with isRunning := false, intervals := [], callbacks := [] }

/-- The externally reachable scheduler lifecycle transitions. -/
inductive SchedOp where
  | start
  | stop

def applySchedOp (st : SchedulerState) : SchedOp → SchedulerState
  | .start => schedStart st
  | .stop => schedStop st

def schedRun (ops : List SchedOp) : SchedulerState :=
  ops.foldl applySchedOp schedInit

theorem foldl_applySchedOp_invariant (ops : List SchedOp)
    (st : SchedulerState)
    (h : (st.isRunning = true → st.intervals = fullTimers) ∧
         (st.isRunning = false → st.intervals = [])) :
    ((ops.foldl applySchedOp st).isRunning = true →
        (ops.foldl applySchedOp st).intervals = fullTimers) ∧
    ((ops.foldl applySchedOp st).isRunning = false →
        (ops.foldl applySchedOp st).intervals = []) := by
  induction ops generalizing st with
  | nil => simpa using h
  | cons op rest ih =>
      rw [List.foldl_cons]
      refine ih (applySchedOp st op) ?_
      cases op with
      | start =>
          unfold applySchedOp schedStart
          by_cases hr : st.isRunning = true
          · rw [if_pos hr]
            exact h
          · rw [if_neg hr]
            have hfalse : st.isRunning = false := by simpa using hr
            constructor
            · intro _
              have hnil : st.intervals = [] := h.2 hfalse
              simp [hnil]
            · intro hcon
              simp at hcon
      | stop =>
          unfold applySchedOp schedStop
          by_cases hr : st.isRunning = false
          · rw [if_pos hr]
            exact h
          · rw [if_neg hr]
            constructor
            · intro hcon
              simp at hcon
            · intro _
              rfl

/-- C4: `start()` on an already-running scheduler is a no-op, and after any
sequence of `start`/`stop` calls from the initial state, a Running
scheduler holds exactly one recurring timer per refresh kind — periods
30 s (listings), 60 s (globalMetrics), 300 s (fearGreed), equal to the
cache TTLs — while a Stopped scheduler holds none. -/
theorem scheduler_timer_invariant (ops : List SchedOp) :
    (∀ st : SchedulerState, st.isRunning = true → schedStart st = st) ∧
    ((schedRun ops).isRunning = true →
        (schedRun ops).intervals =
          [⟨RefreshKind.listings, 30000⟩, ⟨RefreshKind.globalMetrics, 60000⟩,
           ⟨RefreshKind.fearGreed, 300000⟩]) ∧
    ((schedRun ops).isRunning = false → (schedRun ops).intervals = []) := by
  have hinv := foldl_applySchedOp_invariant ops schedInit
    (by constructor <;> intro h <;> simp [schedInit] at h ⊢)
  refine ⟨?_, hinv.1, hinv.2⟩
  intro st hr
  unfold schedStart
  rw [if_pos hr]

/-- C4 witness: concrete instance of `scheduler_timer_invariant` after two
consecutive `start()` calls. -/
theorem scheduler_timer_invariant_witness :
    (schedRun [SchedOp.start, SchedOp.start]).intervals =
      [⟨RefreshKind.listings, 30000⟩, ⟨RefreshKind.globalMetrics, 60000⟩,
       ⟨RefreshKind.fearGreed, 300000⟩] :=
  (scheduler_timer_invariant [SchedOp.start, SchedOp.start]).2.1 rfl

/-- C5: when the provider call fails, the refresh cycle writes nothing to
the cache and makes no announcement — the state written on the previous
successful tick is untouched and `get` keeps returning it exactly until it
naturally expires. -/
theorem refresh_failure_keeps_stale (e : String) (m : GlobalMetrics)
    (listeners : List Listener) (s : CacheStore CacheValue)
    (tPrev tNow : Nat) :
    (refreshGlobalMetrics (.error e) tNow listeners
        (cacheSet tPrev globalMetricsKey (CacheValue.metricsVal m)
          globalMetricsTtl s)).1 = .error e ∧
    (refreshGlobalMetrics (.error e) tNow listeners
        (cacheSet tPrev globalMetricsKey (CacheValue.metricsVal m)
          globalMetricsTtl s)).2.1 =
      cacheSet tPrev globalMetricsKey (CacheValue.metricsVal m)
        globalMetricsTtl s ∧
    (refreshGlobalMetrics (.error e) tNow listeners
        (cacheSet tPrev globalMetricsKey (CacheValue.metricsVal m)
          globalMetricsTtl s)).2.2 = [] ∧
    ((cacheGet tNow globalMetricsKey
        (refreshGlobalMetrics (.error e) tNow listeners
          (cacheSet tPrev globalMetricsKey (CacheValue.metricsVal m)
            globalMetricsTtl s)).2.1).1 =
          some (CacheValue.metricsVal m) ↔
        tNow ≤ tPrev + globalMetricsTtl) := by
  refine ⟨rfl, rfl, rfl, ?_⟩
  show (cacheGet tNow globalMetricsKey
      (cacheSet tPrev globalMetricsKey (CacheValue.metricsVal m)
        globalMetricsTtl s)).1 = some (CacheValue.metricsVal m) ↔ _
  rw [cacheGet_cacheSet_self]
  by_cases h : tNow ≤ tPrev + globalMetricsTtl
  · simp [h]
  · simp [h]

theorem assetKey_ne_listingsKey (id : Int) :
    assetKey id ≠ listingsKey 1 100 := by
  intro h
  have h2 := congrArg String.data h
  unfold assetKey at h2
  rw [show listingsKey 1 100 = "listings:1:100" from rfl] at h2
  rw [String.data_append] at h2
  have h3 : "asset:".data = 'a' :: "sset:".data := rfl
  have h4 : "listings:1:100".data = 'l' :: "istings:1:100".data := rfl
  rw [h3, h4] at h2
  simp at h2

theorem alistLookup_foldl_assetSets (assets : List Asset) (now : Nat)
    (s : CacheStore CacheValue) :
    alistLookup (listingsKey 1 100)
      (assets.foldl (fun acc a =>
        cacheSet now (assetKey a.id) (CacheValue.assetVal a) assetTtl acc)
        s) =
      alistLookup (listingsKey 1 100) s := by
  induction assets generalizing s with
  | nil => rfl
  | cons a t ih =>
      rw [List.foldl_cons, ih]
      unfold cacheSet
      exact alistLookup_insert_ne _ _ (Ne.symm (assetKey_ne_listingsKey a.id))

/-- C6: when a registered listener throws during an announcement, the
exception is caught and recorded for that listener while every other
listener is still invoked with the same announcement (the notify results
cover all listeners, in order, each reflecting its own listener's outcome);
the refresh cycle still completes — it returns its data and the listings
cache write is retained. -/
theorem listener_fault_isolated (listeners : List Listener)
    (assets : List Asset) (now : Nat) (s : CacheStore CacheValue)
    (i : Nat) (cb : Listener) (msg : String)
    (hget : listeners[i]? = some cb)
    (hthrow : cb ⟨RefreshKind.listings,
      AnnouncementData.listings assets⟩ = .error msg) :
    (refreshListings (.ok assets) now listeners s).1 = .ok assets ∧
    (refreshListings (.ok assets) now listeners s).2.2 =
      [(⟨RefreshKind.listings, AnnouncementData.listings assets⟩,
        notify listeners
          ⟨RefreshKind.listings, AnnouncementData.listings assets⟩)] ∧
    (notify listeners
        ⟨RefreshKind.listings, AnnouncementData.listings assets⟩).length =
      listeners.length ∧
    (∀ j : Nat,
      (notify listeners
          ⟨RefreshKind.listings, AnnouncementData.listings assets⟩)[j]? =
        (listeners[j]?).map fun cb =>
          match cb ⟨RefreshKind.listings,
              AnnouncementData.listings assets⟩ with
          | .ok _ => none
          | .error err => some err) ∧
    (notify listeners
        ⟨RefreshKind.listings, AnnouncementData.listings assets⟩)[i]? =
      some (some msg) ∧
    alistLookup (listingsKey 1 100)
        (refreshListings (.ok assets) now listeners s).2.1 =
      some ⟨CacheValue.listingsVal assets, now + listingsTtl, now⟩ := by
  refine ⟨rfl, rfl, ?_, ?_, ?_, ?_⟩
  · exact List.length_map _ _
  · intro j
    unfold notify
    exact List.getElem?_map _ _ _
  · unfold notify
    rw [List.getElem?_map, hget, Option.map_some', hthrow]
  · show alistLookup (listingsKey 1 100)
      ((refreshListings (.ok assets) now listeners s).2.1) = _
    unfold refreshListings
    dsimp only
    rw [alistLookup_foldl_assetSets]
    unfold cacheSet
    exact alistLookup_insert_self _ _ _

/-- C6 witness: concrete instance of `listener_fault_isolated` with a
throwing listener followed by a well-behaved one. -/
theorem listener_fault_isolated_witness :
    (notify [fun _ => Except.error "boom", fun _ => Except.ok ()]
        ⟨RefreshKind.listings, AnnouncementData.listings []⟩).length = 2 :=
  (listener_fault_isolated
    [fun _ => Except.error "boom", fun _ => Except.ok ()] [] 0 []
    0 (fun _ => Except.error "boom") "boom" rfl rfl).2.2.1

/-! ## Message protocol handler (`src/websocket/handlers.ts`,
`src/websocket/index.ts`) -/

/-- The `price_update` payload (`PriceUpdateSchema`). -/
structure PriceUpdate where
  id : Int
  symbol : String
  price : Int
  change24h : Int
  volume24h : Int
  timestamp : String
deriving DecidableEq, Repr

/-- The `market_update` payload (`MarketUpdateSchema`). -/
structure MarketUpdate where
  totalMarketCap : Int
  totalVolume24h : Int
  btcDominance : Int
  timestamp : String
deriving DecidableEq, Repr

/-- `ServerMessage` (`ServerMessageSchema`). -/
inductive ServerMessage where
  | priceUpdate (data : PriceUpdate)
  | marketUpdate (data : MarketUpdate)
  | subscribed (assets : List String)
  | unsubscribed (assets : List String)
  | errorMsg (error : String)
deriving DecidableEq, Repr

/-- `send`: write the frame only when the connection reports itself open;
the result is the list of `(connection, frame)` pairs actually written. -/
def send (isOpen : Conn → Bool) (c : Conn) (m : ServerMessage) :
    List (Conn × ServerMessage) :=
  if isOpen c then [(c, m)] else []

/-- `broadcastPriceUpdate`: send the `price_update` frame to every
subscriber of `update.symbol`. -/
def broadcastPriceUpdate (st : RoomState) (isOpen : Conn → Bool)
    (u : PriceUpdate) : List (Conn × ServerMessage) :=
  (getAssetSubscribers st u.symbol).flatMap fun c =>
    send isOpen c (ServerMessage.priceUpdate u)

/-- `broadcastMarketUpdate`: send the `market_update` frame to every
market-room subscriber. -/
def broadcastMarketUpdate (st : RoomState) (isOpen : Conn → Bool)
    (u : MarketUpdate) : List (Conn × ServerMessage) :=
  (getMarketSubscribers st).flatMap fun c =>
    send isOpen c (ServerMessage.marketUpdate u)

/-- The price-update record built by the `listings` branch of the
`scheduler.onUpdate` listener in `initWebSocket`: the symbol is
lower-cased. -/
def mkPriceUpdate (ts : String) (a : Asset) : PriceUpdate :=
  { id := a.id, symbol := strToLower a.symbol, price := a.price,
    change24h := a.change24h, volume24h := a.volume24h, timestamp := ts }

/-- The `listings` branch of the `scheduler.onUpdate` listener: one
`broadcastPriceUpdate` per asset in the payload. -/
def listingsAnnouncementSends (st : RoomState) (isOpen : Conn → Bool)
    (ts : String) (assets : List Asset) : List (Conn × ServerMessage) :=
  assets.flatMap fun a => broadcastPriceUpdate st isOpen (mkPriceUpdate ts a)

theorem bind_send_eq_map (isOpen : Conn → Bool) (m : ServerMessage)
    (l : List Conn) (hopen : ∀ c, isOpen c = true) :
    l.flatMap (fun c => send isOpen c m) = l.map (fun c => (c, m)) := by
  induction l with
  | nil => rfl
  | cons a t ih =>
      rw [List.flatMap_cons, ih]
      unfold send
      rw [if_pos (hopen a)]
      rfl

theorem mem_broadcastPriceUpdate (st : RoomState) (isOpen : Conn → Bool)
    (u : PriceUpdate) (c : Conn) (m : ServerMessage)
    (hmem : (c, m) ∈ broadcastPriceUpdate st isOpen u) :
    c ∈ getAssetSubscribers st u.symbol ∧
      m = ServerMessage.priceUpdate u := by
  unfold broadcastPriceUpdate at hmem
  rw [List.mem_flatMap] at hmem
  obtain ⟨c₁, hc₁, hsend⟩ := hmem
  unfold send at hsend
  by_cases h : isOpen c₁ = true
  · rw [if_pos h] at hsend
    rw [List.mem_singleton] at hsend
    injection hsend with h₁ h₂
    subst h₁
    exact ⟨hc₁, h₂⟩
  · rw [if_neg h] at hsend
    cases hsend

/-- C7: on a listings announcement, each asset's `price_update` frame goes
exactly to the connections in `subscribersOf(asset.symbol lower-cased)`:
with every connection open, the recipients of `broadcastPriceUpdate` are
precisely that subscriber set; regardless of openness, a connection outside
the set receives nothing for that asset; an empty subscriber set produces
no sends at all; and every frame sent by the listings announcement handler
targets a subscriber of its own asset's lower-cased symbol. -/
theorem broadcast_selective (st : RoomState) (isOpen : Conn → Bool)
    (u : PriceUpdate) (ts : String) (assets : List Asset)
    (hopen : ∀ c, isOpen c = true) :
    ((broadcastPriceUpdate st isOpen u).map Prod.fst =
        getAssetSubscribers st u.symbol) ∧
    (∀ c m, (c, m) ∈ broadcastPriceUpdate st isOpen u →
        c ∈ getAssetSubscribers st u.symbol ∧
          m = ServerMessage.priceUpdate u) ∧
    (getAssetSubscribers st u.symbol = [] →
        broadcastPriceUpdate st isOpen u = []) ∧
    (∀ c m, (c, m) ∈ listingsAnnouncementSends st isOpen ts assets →
        ∃ a ∈ assets,
          m = ServerMessage.priceUpdate (mkPriceUpdate ts a) ∧
          c ∈ getAssetSubscribers st (strToLower a.symbol)) := by
  refine ⟨?_, ?_, ?_, ?_⟩
  · unfold broadcastPriceUpdate
    rw [bind_send_eq_map _ _ _ hopen, List.map_map]
    exact List.map_id _
  · intro c m hmem
    exact mem_broadcastPriceUpdate st isOpen u c m hmem
  · intro hempty
    unfold broadcastPriceUpdate
    rw [hempty]
    rfl
  · intro c m hmem
    unfold listingsAnnouncementSends at hmem
    rw [List.mem_flatMap] at hmem
    obtain ⟨a, ha, hmem⟩ := hmem
    obtain ⟨hc, hm⟩ := mem_broadcastPriceUpdate st isOpen
      (mkPriceUpdate ts a) c m hmem
    exact ⟨a, ha, hm, hc⟩

/-- C7 witness: connection 1 subscribed to "btc", connection 2 to "eth"; a
price update for "eth" is delivered exactly to connection 2. -/
theorem broadcast_selective_witness :
    ((broadcastPriceUpdate (subscribe (subscribe initRooms 1 ["btc"]).2
          2 ["eth"]).2 (fun _ => true)
        ⟨1, "eth", 0, 0, 0, "t"⟩).map Prod.fst =
      getAssetSubscribers (subscribe (subscribe initRooms 1 ["btc"]).2
          2 ["eth"]).2 "eth") ∧
    getAssetSubscribers (subscribe (subscribe initRooms 1 ["btc"]).2
        2 ["eth"]).2 "eth" = [2] :=
  ⟨(broadcast_selective (subscribe (subscribe initRooms 1 ["btc"]).2
        2 ["eth"]).2 (fun _ => true) ⟨1, "eth", 0, 0, 0, "t"⟩ "t" []
      (fun _ => rfl)).1,
   by decide⟩

end Haunt
